import Mathlib

/-!
Shallow embedding of the costing engine of the menu-builder application
(src/app/models.py, with the fixed add-on price tables and the menu-creation
profit snippet of src/app/routes/products.py).

Money is modelled as `ℚ`.  The source computes leaf and menu costs with
Python floats and stores them with `round(total, 2)`; here the arithmetic is
exact rational arithmetic and `round2` is round-half-to-even to two decimal
places, which agrees with the source on every whole-cent input (all money
columns are `Numeric(15, 2)`, i.e. whole cents).

The database session is passed explicitly as a `DB` value; an ORM attribute
assignment becomes `DB.setCost`, a relationship lookup becomes a keyed
`find?`.  A Python `AttributeError` on a missing joined row is modelled by
`Option`/`none`; a failing `db.session.commit()` is modelled by the
`commitOk` flag given to `Product.recalculate_all_costs`.
-/

namespace MenuBuilder

/-- Rows of the `ingredients` table (src/app/models.py, class Ingredient).
Only the columns read by the costing engine are kept. -/
structure Ingredient where
  id : Nat
  name : String
  food_paper_cost : ℚ
  is_active : Bool

deriving instance DecidableEq for Ingredient

/-- Rows of the `product_ingredients` join table
(src/app/models.py, class ProductIngredient).  The table has columns
`id`, `product_id`, `ingredient_id` only: there is no quantity column. -/
structure ProductIngredient where
  id : Nat
  product_id : Nat
  ingredient_id : Nat

deriving instance DecidableEq for ProductIngredient

/-- Rows of the `products` table (src/app/models.py, class Product),
restricted to the columns the costing engine reads or writes. -/
structure Product where
  id : Nat
  name : String
  product_code : String
  product_type : String
  food_paper_cost_total : ℚ
  is_active : Bool
  base_product_id : Option Nat
  fries_size : Option String
  drink_size : Option String
  fries_fp_cost : Option ℚ
  drink_fp_cost : Option ℚ

deriving instance DecidableEq for Product

/-- Rows of the `product_listings` table (src/app/models.py,
class ProductListing), restricted to the columns used for margins. -/
structure ProductListing where
  id : Nat
  restaurant_id : Nat
  product_id : Nat
  local_price : ℚ
  delivery_price : ℚ

deriving instance DecidableEq for ProductListing

/-- The persisted state the costing engine operates over. -/
structure DB where
  ingredients : List Ingredient
  products : List Product
  product_ingredients : List ProductIngredient

deriving instance DecidableEq for DB

/-- `x or 0` on a nullable numeric column. -/
def orZero : Option ℚ → ℚ
  | some q => q
  | none => 0

/-- Python truthiness of a nullable numeric value
(`None` and `0` are falsy). -/
def truthyQ : Option ℚ → Bool
  | some q => q != 0
  | none => false

/-- Round-half-to-even to the nearest integer, as Python `round` does. -/
def roundHalfEven (q : ℚ) : ℤ :=
  if q - (q.floor : ℚ) < 1 / 2 then q.floor
  else if (1 : ℚ) / 2 < q - (q.floor : ℚ) then q.floor + 1
  else if q.floor % 2 = 0 then q.floor else q.floor + 1

/-- `round(x, 2)` of the source. -/
def round2 (q : ℚ) : ℚ := (roundHalfEven (q * 100) : ℚ) / 100

/-- A value that is a whole number of cents (at most 2 decimal places). -/
def isCent (q : ℚ) : Prop := ∃ k : ℤ, q = (k : ℚ) / 100

/-- `Ingredient.query.get(iid)` / the `ProductIngredient.ingredient`
relationship, keyed lookup. -/
def DB.getIngredient (db : DB) (iid : Nat) : Option Ingredient :=
  db.ingredients.find? (fun i => i.id == iid)

/-- `Product.query.get(pid)`, keyed lookup. -/
def DB.getProduct (db : DB) (pid : Nat) : Option Product :=
  db.products.find? (fun p => p.id == pid)

/-- Assignment `product.food_paper_cost_total = c` on the session row
with the given id. -/
def DB.setCost (db : DB) (pid : Nat) (c : ℚ) : DB :=
  { db with
    products := db.products.map
      (fun p => if p.id == pid then { p with food_paper_cost_total := c } else p) }

/-- The `self.ingredients` relationship: the product's ingredient lines. -/
def Product.lines (db : DB) (p : Product) : List ProductIngredient :=
  db.product_ingredients.filter (fun pi => pi.product_id == p.id)

/-- The loop `for product_ingredient in self.ingredients:
total_cost += float(product_ingredient.ingredient.food_paper_cost)`:
collects each line's ingredient unit cost, failing (as the attribute access
does) if a referenced ingredient row is missing. -/
def linePrices (db : DB) : List ProductIngredient → Option (List ℚ)
  | [] => some []
  | pi :: rest =>
    match db.getIngredient pi.ingredient_id with
    | none => none
    | some ing => (linePrices db rest).map (fun ps => ing.food_paper_cost :: ps)

/-- The base-product contribution of the menu branch of
`Product.recalculate_cost`: `if self.base_product_id:` (Python truthiness,
so id 0 behaves like `None`), then `Product.query.get`, adding the stored
`food_paper_cost_total` if the row exists and nothing otherwise. -/
def menuBase (db : DB) (p : Product) : ℚ :=
  match p.base_product_id with
  | some bid =>
    if bid = 0 then 0
    else
      match db.getProduct bid with
      | some bp => bp.food_paper_cost_total
      | none => 0
  | none => 0

/-- `Product.recalculate_cost` (src/app/models.py lines 125-146): leaf
products sum their lines' ingredient costs, menus add the stored base
product cost plus the menu's stored fries and drink costs; the result is
stored rounded to 2 decimal places and returned. -/
def Product.recalculate_cost (db : DB) (p : Product) : Option ℚ :=
  if p.product_type = "product" then
    (linePrices db (p.lines db)).map (fun ps => round2 ps.sum)
  else if p.product_type = "menu" then
    some (round2 (menuBase db p + orZero p.fries_fp_cost + orZero p.drink_fp_cost))
  else
    some (round2 0)

/-- The loop body of `Product.update_dependent_menus`
(src/app/models.py lines 157-163): recompute each dependent menu, store the
new cost, and collect the names of menus whose cost moved by more than
0.001. -/
def depMenuStep : List Product → List String → DB → Option (List String × DB)
  | [], names, st => some (names, st)
  | m :: rest, names, st =>
    match Product.recalculate_cost st m with
    | none => none
    | some newCost =>
      let names' :=
        if abs (m.food_paper_cost_total - newCost) > 1 / 1000 then names ++ [m.name]
        else names
      depMenuStep rest names' (st.setCost m.id newCost)

/-- `Product.update_dependent_menus` (src/app/models.py lines 148-165). -/
def Product.update_dependent_menus (db : DB) (p : Product) :
    Option (List String × DB) :=
  if p.product_type = "product" then
    depMenuStep
      (db.products.filter
        (fun m => m.product_type == "menu" && m.base_product_id == some p.id && m.is_active))
      [] db
  else
    some ([], db)

/-- One line of the audit log printed by `Product.recalculate_all_costs`
for each product whose cost changed. -/
structure AuditEntry where
  name : String
  product_code : String
  old_cost : ℚ
  new_cost : ℚ

deriving instance DecidableEq for AuditEntry

/-- One pass of `Product.recalculate_all_costs` over a list of products
(src/app/models.py lines 173-188): recompute, store, and count/log the
items whose stored cost moved by more than 0.001. -/
def batchStep : List Product → Nat → List AuditEntry → DB →
    Option (Nat × List AuditEntry × DB)
  | [], cnt, audit, st => some (cnt, audit, st)
  | m :: rest, cnt, audit, st =>
    match Product.recalculate_cost st m with
    | none => none
    | some newCost =>
      let st' := st.setCost m.id newCost
      if abs (m.food_paper_cost_total - newCost) > 1 / 1000 then
        batchStep rest (cnt + 1)
          (audit ++ [⟨m.name, m.product_code, m.food_paper_cost_total, newCost⟩]) st'
      else
        batchStep rest cnt audit st'

/-- Outcome of `Product.recalculate_all_costs`: either the commit succeeded
and the updated state is persisted together with the returned count and the
audit log, or the commit failed, the session was rolled back and the error
was re-raised (`failed` carries the state left persisted). -/
inductive BatchOutcome where
  | ok (updated_count : Nat) (audit : List AuditEntry) (persisted : DB)
  | failed (persisted : DB)

deriving instance DecidableEq for BatchOutcome

/-- `Product.recalculate_all_costs` (src/app/models.py lines 167-197):
first every `product`-type row, then every `menu`-type row, then a single
commit; on commit failure the session is rolled back and the exception is
re-raised.  `commitOk` models whether the commit succeeds; `none` models an
exception thrown while recomputing (before the commit is attempted). -/
def Product.recalculate_all_costs (db : DB) (commitOk : Bool) :
    Option BatchOutcome :=
  match batchStep (db.products.filter (fun p => p.product_type == "product")) 0 [] db with
  | none => none
  | some (c1, a1, st1) =>
    match batchStep (st1.products.filter (fun p => p.product_type == "menu")) c1 a1 st1 with
    | none => none
    | some (c2, a2, st2) =>
      some (if commitOk then .ok c2 a2 st2 else .failed db)

/-- `ProductListing.get_total_food_paper_cost` (src/app/models.py lines
392-394): `float(self.product.food_paper_cost_total or 0)`; the relationship
access fails if the product row is missing. -/
def ProductListing.get_total_food_paper_cost (db : DB) (l : ProductListing) :
    Option ℚ :=
  (db.getProduct l.product_id).map (fun p => p.food_paper_cost_total)

/-- `ProductListing.get_gross_profit_local` (src/app/models.py 396-398). -/
def ProductListing.get_gross_profit_local (db : DB) (l : ProductListing) :
    Option ℚ :=
  (l.get_total_food_paper_cost db).map (fun c => l.local_price - c)

/-- `ProductListing.get_gross_profit_delivery` (src/app/models.py 400-402). -/
def ProductListing.get_gross_profit_delivery (db : DB) (l : ProductListing) :
    Option ℚ :=
  (l.get_total_food_paper_cost db).map (fun c => l.delivery_price - c)

/-- `ProductListing.get_gross_profit_margin_local`
(src/app/models.py 404-408). -/
def ProductListing.get_gross_profit_margin_local (db : DB) (l : ProductListing) :
    Option ℚ :=
  (l.get_gross_profit_local db).map
    (fun gp => if 0 < l.local_price then gp / l.local_price * 100 else 0)

/-- `ProductListing.get_gross_profit_margin_delivery`
(src/app/models.py 410-414). -/
def ProductListing.get_gross_profit_margin_delivery (db : DB) (l : ProductListing) :
    Option ℚ :=
  (l.get_gross_profit_delivery db).map
    (fun gp => if 0 < l.delivery_price then gp / l.delivery_price * 100 else 0)

/-- The fixed fries price table of `create_menu`
(src/app/routes/products.py line 195). -/
def fries_prices (size : String) : Option ℚ :=
  if size = "small" then some (5 / 2)
  else if size = "medium" then some 3
  else if size = "large" then some (7 / 2)
  else none

/-- The fixed drink price table of `create_menu`
(src/app/routes/products.py line 200). -/
def drink_prices (size : String) : Option ℚ :=
  if size = "small" then some (3 / 2)
  else if size = "medium" then some 2
  else if size = "large" then some (5 / 2)
  else none

/-- The profit snippet of `create_menu` (src/app/routes/products.py lines
206-209): `if menu.selling_price:` (truthiness, so 0 skips the whole
block), then `gross_profit = selling_price - total_cost` and
`gross_profit_percent = gross_profit / selling_price * 100 if
selling_price > 0 else 0`.  Returns the assigned
`(gross_profit, gross_profit_percent)` pair, or `none` when the block is
skipped and the fields stay unset. -/
def create_menu_profit (selling_price : Option ℚ) (total_cost : ℚ) :
    Option (ℚ × ℚ) :=
  if truthyQ selling_price then
    let sp := orZero selling_price
    let gp := sp - total_cost
    some (gp, if 0 < sp then gp / sp * 100 else 0)
  else
    none

/-- Refinement comparison target, following the words of the
specification (sections 4.1 and 8): leaf cost is the sum over the
ingredient lines of (line quantity × ingredient unit price), in exact
decimal arithmetic.  Each list element is a (quantity, unit price) pair. -/
def spec_leaf_cost (lns : List (ℚ × ℚ)) : ℚ :=
  (lns.map (fun l => l.1 * l.2)).sum

/-- All leaf products of the state can be recomputed without a fault:
every ingredient line of every `product`-type row resolves to an existing
ingredient row.  Guaranteed in the source by the foreign-key constraint on
`product_ingredients.ingredient_id`. -/
def LeafResolvable (db : DB) : Prop :=
  ∀ p ∈ db.products, p.product_type = "product" →
    (Product.recalculate_cost db p).isSome = true

/-- Product ids are pairwise distinct, as the primary key guarantees. -/
def IdsNodup (db : DB) : Prop :=
  (db.products.map (fun p => p.id)).Nodup

/-- The base product referenced by a menu, when it exists in the state, is
a leaf (`product`-type) row.  One-hop propagation per section 4.3 of the
specification. -/
def baseOk (db : DB) (m : Product) : Bool :=
  match m.base_product_id with
  | none => true
  | some bid =>
    match db.getProduct bid with
    | none => true
    | some q => q.product_type == "product"

/-- Every menu of the state has a leaf (or missing) base product. -/
def BasesAreLeaves (db : DB) : Prop :=
  ∀ m ∈ db.products, m.product_type = "menu" → baseOk db m = true

instance (db : DB) : Decidable (IdsNodup db) := by
  unfold IdsNodup
  infer_instance

instance (db : DB) : Decidable (LeafResolvable db) := by
  unfold LeafResolvable
  infer_instance

instance (db : DB) : Decidable (BasesAreLeaves db) := by
  unfold BasesAreLeaves
  infer_instance

/-- Every product row of `st` either carries a whole-cent stored cost or is
an untouched row of `db`. -/
def CentOrOld (db st : DB) : Prop :=
  ∀ q ∈ st.products, isCent q.food_paper_cost_total ∨ q ∈ db.products

/-- The changed-count reported by a second consecutive run of
`recalculate_all_costs` (no data change between the runs). -/
def secondRunChangedCount (db : DB) : Option Nat :=
  match Product.recalculate_all_costs db true with
  | some (.ok _ _ st) =>
    match Product.recalculate_all_costs st true with
    | some (.ok c2 _ _) => some c2
    | _ => none
  | _ => none

/-- Concrete state: one ingredient at 1.50 EUR. -/
def exIngA : Ingredient := ⟨1, "Pollo", 3 / 2, true⟩

/-- Concrete state: a leaf product with one ingredient line, stale cost 0. -/
def exP : Product := ⟨1, "P", "SW1", "product", 0, true, none, none, none, none, none⟩

/-- Concrete state: a menu over product 1 with large fries (stored cost
3.50) and medium drink (stored cost 2.00), stale cost 0. -/
def exM : Product :=
  ⟨2, "M", "MN1", "menu", 0, true, some 1, some "large", some "medium", some (7 / 2), some 2⟩

/-- Concrete catalog used by the witnesses. -/
def exDB : DB := ⟨[exIngA], [exP, exM], [⟨1, 1, 1⟩]⟩

/-- Concrete state: the leaf product with stored cost 3.00. -/
def exP3 : Product := ⟨1, "P", "SW1", "product", 3, true, none, none, none, none, none⟩

/-- Concrete state: a menu whose stored fries cost (9.99) disagrees with
the fixed "large" table price (3.50). -/
def exM5 : Product :=
  ⟨2, "M5", "MN5", "menu", 0, true, some 1, some "large", some "medium", some (999 / 100), some 2⟩

/-- Concrete catalog for the add-on pricing counterexample. -/
def exDB5 : DB := ⟨[exIngA], [exP3, exM5], [⟨1, 1, 1⟩]⟩

/-- Concrete state: a menu whose base reference (id 9) does not exist. -/
def exM8 : Product := ⟨3, "M8", "MN8", "menu", 0, true, some 9, none, none, some 1, none⟩

/-- Concrete catalog with a dangling base-product reference. -/
def exDB8 : DB := ⟨[], [exM8], []⟩

/-- Concrete state: a menu with no base and stored fries cost 1.00,
stale stored total 0. -/
def c3M1 : Product := ⟨1, "M1", "MN_1", "menu", 0, true, none, none, none, some 1, none⟩

/-- Concrete state: a menu whose base reference points at menu `c3M1`. -/
def c3M2 : Product := ⟨2, "M2", "MN_2", "menu", 0, true, some 1, none, none, none, none⟩

/-- Concrete catalog where a menu uses another menu as base product and is
stored before it: recompute-all is not idempotent here. -/
def c3db : DB := ⟨[], [c3M2, c3M1], []⟩

/-- Concrete state: a leaf product for the quantity counterexample. -/
def c1P : Product := ⟨1, "P", "SW1", "product", 0, true, none, none, none, none, none⟩

/-- Concrete catalog: product 1 has one line on the 1.50 EUR ingredient;
the specification's scenario reads this composition as quantity 2. -/
def c1db : DB := ⟨[exIngA], [c1P], [⟨1, 1, 1⟩]⟩

/-- Concrete state: a product listing priced 0 locally, 4.00 on delivery,
over a product with stored cost 2.00. -/
def c9P : Product := ⟨1, "P", "SW1", "product", 2, true, none, none, none, none, none⟩

/-- Concrete listing for the zero-price margin checks. -/
def c9L : ProductListing := ⟨1, 1, 1, 0, 4⟩

/-- Concrete catalog for the margin checks. -/
def c9db : DB := ⟨[], [c9P], []⟩

/-- Derived formula (used in statements): the value `recalculate_cost`
stores for a menu `m` whose base product row is `p` — stored base cost plus
the menu's stored add-on costs, rounded. -/
def newMenuCost (p m : Product) : ℚ :=
  round2 (p.food_paper_cost_total + orZero m.fries_fp_cost + orZero m.drink_fp_cost)

/-- Derived formula (used in statements): the cost the leaf phase of
`recalculate_all_costs` stores for a leaf product. -/
def leafNew (db : DB) (m : Product) : ℚ :=
  (Product.recalculate_cost db m).getD 0

/-- Derived formula (used in statements): the base contribution a menu sees
during the menu phase of `recalculate_all_costs`, i.e. the base product's
freshly recomputed leaf cost. -/
def menuBaseNew (db : DB) (m : Product) : ℚ :=
  match m.base_product_id with
  | some bid =>
    if bid = 0 then 0
    else
      match db.getProduct bid with
      | some bp => leafNew db bp
      | none => 0
  | none => 0

/-- Derived formula (used in statements): the cost the menu phase of
`recalculate_all_costs` stores for a menu product. -/
def menuNew (db : DB) (m : Product) : ℚ :=
  round2 (menuBaseNew db m + orZero m.fries_fp_cost + orZero m.drink_fp_cost)

/-- Derived formula (used in statements): what the leaf phase of
`recalculate_all_costs` does to a single product row. -/
def phase1Upd (db : DB) (q : Product) : Product :=
  if q.product_type == "product" then { q with food_paper_cost_total := leafNew db q }
  else q

/-- Derived formula (used in statements): the session state after the leaf
phase of `recalculate_all_costs`. -/
def phase1DB (db : DB) : DB :=
  { db with products := db.products.map (phase1Upd db) }

/-- Derived formula (used in statements): what the whole of
`recalculate_all_costs` does to a single product row. -/
def finalUpd (db : DB) (q : Product) : Product :=
  if q.product_type == "product" then { q with food_paper_cost_total := leafNew db q }
  else if q.product_type == "menu" then { q with food_paper_cost_total := menuNew db q }
  else q

/-- Derived formula (used in statements): the session state after both
phases of `recalculate_all_costs`. -/
def finalDB (db : DB) : DB :=
  { db with products := db.products.map (finalUpd db) }

/-! ### Rounding and whole-cent lemmas -/

theorem roundHalfEven_intCast (k : ℤ) : roundHalfEven (k : ℚ) = k := by
  have hfloor : ((k : ℚ)).floor = k := by
    rw [Rat.floor_def', Rat.num_intCast, Rat.den_intCast]
    simp
  unfold roundHalfEven
  rw [hfloor]
  norm_num

theorem round2_intCast_div (k : ℤ) : round2 ((k : ℚ) / 100) = (k : ℚ) / 100 := by
  unfold round2
  have h : (k : ℚ) / 100 * 100 = (k : ℚ) := by
    rw [div_mul_cancel₀]
    norm_num
  rw [h, roundHalfEven_intCast]

theorem isCent_round2 (q : ℚ) : isCent (round2 q) :=
  ⟨roundHalfEven (q * 100), rfl⟩

theorem round2_isCent {q : ℚ} (h : isCent q) : round2 q = q := by
  obtain ⟨k, rfl⟩ := h
  exact round2_intCast_div k

theorem isCent_add {a b : ℚ} : isCent a → isCent b → isCent (a + b) := by
  rintro ⟨j, rfl⟩ ⟨k, rfl⟩
  refine ⟨j + k, ?_⟩
  push_cast
  ring

theorem isCent_zero : isCent 0 := ⟨0, by norm_num⟩

/-! ### Lookup and update lemmas for the state -/

theorem find?_comp_id_preserving {l : List Product} {f : Product → Product}
    (hf : ∀ q, (f q).id = q.id) (i : Nat) :
    l.find? ((fun p => p.id == i) ∘ f) = l.find? (fun p => p.id == i) := by
  induction l with
  | nil => rfl
  | cons a t ih =>
    cases h : (a.id == i) <;>
      simp [List.find?, Function.comp, hf a, h, ih]

theorem getProduct_setCost (db : DB) (j : Nat) (c : ℚ) (i : Nat) :
    (db.setCost j c).getProduct i =
      (db.getProduct i).map
        (fun q => if q.id == j then { q with food_paper_cost_total := c } else q) := by
  unfold DB.getProduct DB.setCost
  rw [List.find?_map, find?_comp_id_preserving]
  intro q
  by_cases h : q.id == j <;> simp [h]

theorem id_eq_of_getProduct {db : DB} {i : Nat} {q : Product}
    (h : db.getProduct i = some q) : q.id = i := by
  have := List.find?_some h
  simpa using this

theorem mem_of_getProduct {db : DB} {i : Nat} {q : Product}
    (h : db.getProduct i = some q) : q ∈ db.products :=
  List.mem_of_find?_eq_some h

theorem find?_id_of_mem {l : List Product} {p : Product}
    (hmem : p ∈ l) (hnodup : (l.map (fun q => q.id)).Nodup) :
    l.find? (fun q => q.id == p.id) = some p := by
  induction l with
  | nil => cases hmem
  | cons a t ih =>
    by_cases h : a.id = p.id
    · have hap : a = p := by
        rcases List.mem_cons.mp hmem with rfl | hp
        · rfl
        · exact List.inj_on_of_nodup_map hnodup (List.mem_cons_self a t)
            (List.mem_cons_of_mem a hp) h
      subst hap
      simp [List.find?]
    · have hp : p ∈ t := by
        rcases List.mem_cons.mp hmem with rfl | hp
        · exact absurd rfl h
        · exact hp
      have ht : (t.map (fun q => q.id)).Nodup := by
        rw [List.map_cons, List.nodup_cons] at hnodup
        exact hnodup.2
      have hne : (a.id == p.id) = false := by simpa using h
      simp [List.find?, hne, ih hp ht]

theorem getProduct_of_mem {db : DB} {p : Product}
    (hmem : p ∈ db.products) (hnodup : IdsNodup db) :
    db.getProduct p.id = some p :=
  find?_id_of_mem hmem hnodup

theorem baseOk_spec {db : DB} {m q : Product} {bid : Nat}
    (h : baseOk db m = true) (hb : m.base_product_id = some bid)
    (hq : db.getProduct bid = some q) : q.product_type = "product" := by
  simp only [baseOk, hb, hq] at h
  simpa using h

/-! ### Characterizations of `recalculate_cost` -/

theorem recalc_menu (db : DB) (m : Product) (hm : m.product_type = "menu") :
    Product.recalculate_cost db m =
      some (round2 (menuBase db m + orZero m.fries_fp_cost + orZero m.drink_fp_cost)) := by
  unfold Product.recalculate_cost
  rw [hm, if_neg (show ¬("menu" = "product") by decide), if_pos rfl]

theorem linePrices_congr {db1 db2 : DB} (hi : db2.ingredients = db1.ingredients) :
    ∀ l, linePrices db2 l = linePrices db1 l := by
  intro l
  induction l with
  | nil => rfl
  | cons pi rest ih => simp [linePrices, DB.getIngredient, hi, ih]

theorem lines_congr {db1 db2 : DB} {p q : Product}
    (hpi : db2.product_ingredients = db1.product_ingredients) (hid : q.id = p.id) :
    q.lines db2 = p.lines db1 := by
  unfold Product.lines
  rw [hpi, hid]

theorem recalc_leaf_congr {db1 db2 : DB} {p q : Product}
    (hi : db2.ingredients = db1.ingredients)
    (hpi : db2.product_ingredients = db1.product_ingredients)
    (hid : q.id = p.id) (hty : q.product_type = p.product_type)
    (hp : p.product_type = "product") :
    Product.recalculate_cost db2 q = Product.recalculate_cost db1 p := by
  unfold Product.recalculate_cost
  rw [hty, hp]
  norm_num
  rw [lines_congr hpi hid, linePrices_congr hi]

theorem recalc_leaf_setCost (db : DB) (j : Nat) (c : ℚ) {p : Product}
    (hp : p.product_type = "product") :
    Product.recalculate_cost (db.setCost j c) p = Product.recalculate_cost db p :=
  recalc_leaf_congr rfl rfl rfl rfl hp

theorem menuBase_eq {st : DB} {m p : Product} {bid : Nat}
    (hb : m.base_product_id = some bid) (h0 : bid ≠ 0)
    (hp : st.getProduct bid = some p) :
    menuBase st m = p.food_paper_cost_total := by
  simp [menuBase, hb, h0, hp]

theorem menuBase_missing {st : DB} {m : Product} {bid : Nat}
    (hb : m.base_product_id = some bid) (h0 : bid ≠ 0)
    (hp : st.getProduct bid = none) :
    menuBase st m = 0 := by
  simp [menuBase, hb, h0, hp]

/-! ### Sequences of cost stores -/

theorem foldl_fixed {α β : Type} (f : α → β → α) :
    ∀ (ms : List β) (r : α), (∀ m ∈ ms, f r m = r) → ms.foldl f r = r := by
  intro ms
  induction ms with
  | nil => intro r _; rfl
  | cons m rest ih =>
    intro r h
    rw [List.foldl_cons, h m (List.mem_cons_self m rest)]
    exact ih r (fun m' hm' => h m' (List.mem_cons_of_mem m hm'))

theorem foldl_setCost_eq (val : Product → ℚ) :
    ∀ (ms : List Product) (st : DB),
      ms.foldl (fun s m => s.setCost m.id (val m)) st =
        { st with
          products := st.products.map
            (fun q => ms.foldl
              (fun r m =>
                if r.id == m.id then { r with food_paper_cost_total := val m } else r)
              q) } := by
  intro ms
  induction ms with
  | nil =>
    intro st
    simp
  | cons m rest ih =>
    intro st
    rw [List.foldl_cons, ih]
    simp only [DB.setCost, List.map_map]
    rfl

theorem foldl_costUpd_notmem (val : Product → ℚ) :
    ∀ (ms : List Product) (q : Product), (∀ m ∈ ms, m.id ≠ q.id) →
      ms.foldl
        (fun r m =>
          if r.id == m.id then { r with food_paper_cost_total := val m } else r)
        q = q := by
  intro ms
  induction ms with
  | nil => intro q _; rfl
  | cons m rest ih =>
    intro q h
    have hne : (q.id == m.id) = false := by
      simpa using fun he => h m (List.mem_cons_self m rest) he.symm
    rw [List.foldl_cons, if_neg (by simp [hne])]
    exact ih q (fun m' hm' => h m' (List.mem_cons_of_mem m hm'))

theorem foldl_costUpd_mem (val : Product → ℚ) :
    ∀ (ms : List Product) (q : Product),
      (∀ m ∈ ms, m.id = q.id → m = q) → q ∈ ms →
      ms.foldl
        (fun r m =>
          if r.id == m.id then { r with food_paper_cost_total := val m } else r)
        q = { q with food_paper_cost_total := val q } := by
  intro ms
  induction ms with
  | nil => intro q _ hmem; cases hmem
  | cons m rest ih =>
    intro q hinj hmem
    by_cases hid : q.id = m.id
    · have hmq : m = q := hinj m (List.mem_cons_self m rest) hid.symm
      rw [List.foldl_cons, hmq, if_pos (by simp)]
      refine foldl_fixed _ rest _ (fun m' hm' => ?_)
      by_cases h' : ({ q with food_paper_cost_total := val q } : Product).id = m'.id
      · have hm'q : m' = q := hinj m' (List.mem_cons_of_mem m hm') (by simp at h' ⊢; exact h'.symm)
        rw [hm'q, if_pos (by simp)]
      · rw [if_neg (by simpa using h')]
    · have hq : q ∈ rest := by
        rcases List.mem_cons.mp hmem with rfl | hq
        · exact absurd rfl hid
        · exact hq
      have hne : (q.id == m.id) = false := by simpa using hid
      rw [List.foldl_cons, if_neg (by simp [hne])]
      exact ih q (fun m' hm' => hinj m' (List.mem_cons_of_mem m hm')) hq

/-! ### The dependent-menu update loop -/

theorem depMenuStep_spec (p : Product) :
    ∀ (ms : List Product) (names : List String) (st : DB),
      (∀ m ∈ ms, m.product_type = "menu") →
      (∀ m ∈ ms, m.base_product_id = some p.id) →
      (∀ m ∈ ms, m.id ≠ p.id) →
      p.id ≠ 0 →
      st.getProduct p.id = some p →
      depMenuStep ms names st =
        some
          (names ++
            (ms.filter
              (fun m =>
                decide (abs (m.food_paper_cost_total - newMenuCost p m) > 1 / 1000))).map
              (fun m => m.name),
           ms.foldl (fun s m => s.setCost m.id (newMenuCost p m)) st) := by
  intro ms
  induction ms with
  | nil =>
    intro names st _ _ _ _ _
    simp [depMenuStep]
  | cons m rest ih =>
    intro names st h1 h2 h3 h0 hst
    have hm : m.product_type = "menu" := h1 m (List.mem_cons_self m rest)
    have hrc : Product.recalculate_cost st m = some (newMenuCost p m) := by
      rw [recalc_menu st m hm]
      unfold newMenuCost
      rw [menuBase_eq (h2 m (List.mem_cons_self m rest)) h0 hst]
    have hst' : (st.setCost m.id (newMenuCost p m)).getProduct p.id = some p := by
      rw [getProduct_setCost, hst]
      have hne : ¬ (p.id == m.id) = true := by
        simp only [beq_iff_eq]
        exact fun he => (h3 m (List.mem_cons_self m rest)) he.symm
      exact congrArg some (if_neg hne)
    have hrest := ih (if abs (m.food_paper_cost_total - newMenuCost p m) > 1 / 1000
        then names ++ [m.name] else names)
      (st.setCost m.id (newMenuCost p m))
      (fun x hx => h1 x (List.mem_cons_of_mem m hx))
      (fun x hx => h2 x (List.mem_cons_of_mem m hx))
      (fun x hx => h3 x (List.mem_cons_of_mem m hx)) h0 hst'
    simp only [depMenuStep, hrc]
    rw [hrest]
    by_cases hch : abs (m.food_paper_cost_total - newMenuCost p m) > 1 / 1000
    · rw [if_pos hch, List.filter_cons_of_pos (by simpa using hch)]
      simp [List.append_assoc]
    · rw [if_neg hch, List.filter_cons_of_neg (by simpa using hch)]
      rfl

/-- C7 helper: the dependent-menu predicate of `update_dependent_menus`. -/
theorem dep_pred_spec {p m : Product}
    (h : (m.product_type == "menu" && m.base_product_id == some p.id && m.is_active) = true) :
    m.product_type = "menu" ∧ m.base_product_id = some p.id ∧ m.is_active = true := by
  simp only [Bool.and_eq_true, beq_iff_eq] at h
  exact ⟨h.1.1, h.1.2, h.2⟩

theorem update_dependent_menus_char (db : DB) (p : Product)
    (hp : p.product_type = "product") (hmem : p ∈ db.products)
    (hnodup : IdsNodup db) (hpid : p.id ≠ 0) :
    Product.update_dependent_menus db p =
      some
        (((db.products.filter
              (fun m => m.product_type == "menu" && m.base_product_id == some p.id && m.is_active)).filter
            (fun m => decide (abs (m.food_paper_cost_total - newMenuCost p m) > 1 / 1000))).map
          (fun m => m.name),
         { db with
           products := db.products.map
             (fun q =>
               if q.product_type == "menu" && q.base_product_id == some p.id && q.is_active then
                 { q with food_paper_cost_total := newMenuCost p q }
               else q) }) := by
  unfold Product.update_dependent_menus
  rw [if_pos hp]
  have hinj : ∀ a ∈ db.products, ∀ b ∈ db.products, a.id = b.id → a = b := by
    intro a ha b hb hab
    exact List.inj_on_of_nodup_map hnodup ha hb hab
  have h1 : ∀ m ∈ db.products.filter
      (fun m => m.product_type == "menu" && m.base_product_id == some p.id && m.is_active),
      m.product_type = "menu" :=
    fun m hm => (dep_pred_spec (List.mem_filter.mp hm).2).1
  have h2 : ∀ m ∈ db.products.filter
      (fun m => m.product_type == "menu" && m.base_product_id == some p.id && m.is_active),
      m.base_product_id = some p.id :=
    fun m hm => (dep_pred_spec (List.mem_filter.mp hm).2).2.1
  have h3 : ∀ m ∈ db.products.filter
      (fun m => m.product_type == "menu" && m.base_product_id == some p.id && m.is_active),
      m.id ≠ p.id := by
    intro m hm he
    have hmp : m = p := hinj m (List.mem_filter.mp hm).1 p hmem he
    have := h1 m hm
    rw [hmp, hp] at this
    exact absurd this (by decide)
  rw [depMenuStep_spec p _ [] db h1 h2 h3 hpid (getProduct_of_mem hmem hnodup)]
  rw [List.nil_append, foldl_setCost_eq]
  simp only [Option.some.injEq, Prod.mk.injEq]
  refine ⟨by trivial, ?_⟩
  congr 1
  apply List.map_congr_left
  intro q hq
  by_cases hdep : (q.product_type == "menu" && q.base_product_id == some p.id && q.is_active) = true
  · rw [if_pos hdep]
    exact foldl_costUpd_mem _ _ q
      (fun m hm hid => hinj m (List.mem_filter.mp hm).1 q hq hid)
      (List.mem_filter.mpr ⟨hq, hdep⟩)
  · rw [if_neg hdep]
    refine foldl_costUpd_notmem _ _ q (fun m hm hid => ?_)
    have hmq : m = q := hinj m (List.mem_filter.mp hm).1 q hq hid
    exact hdep (hmq ▸ (List.mem_filter.mp hm).2)

/-! ### The bulk recompute loop -/

theorem batchStep_spec (val : Product → ℚ) (P : Product → Prop) (Inv : DB → Prop)
    (hval : ∀ st m, Inv st → P m → Product.recalculate_cost st m = some (val m))
    (hpres : ∀ st m, Inv st → P m → Inv (st.setCost m.id (val m))) :
    ∀ (ms : List Product) (cnt : Nat) (aud : List AuditEntry) (st : DB),
      (∀ m ∈ ms, P m) → Inv st →
      batchStep ms cnt aud st =
        some
          (cnt +
             (ms.filter
               (fun m => decide (abs (m.food_paper_cost_total - val m) > 1 / 1000))).length,
           aud ++
             (ms.filter
               (fun m => decide (abs (m.food_paper_cost_total - val m) > 1 / 1000))).map
               (fun m => ⟨m.name, m.product_code, m.food_paper_cost_total, val m⟩),
           ms.foldl (fun s m => s.setCost m.id (val m)) st) := by
  intro ms
  induction ms with
  | nil =>
    intro cnt aud st _ _
    simp [batchStep]
  | cons m rest ih =>
    intro cnt aud st hP hInv
    have hrc := hval st m hInv (hP m (List.mem_cons_self m rest))
    have hrest := ih
      (if abs (m.food_paper_cost_total - val m) > 1 / 1000 then cnt + 1 else cnt)
      (if abs (m.food_paper_cost_total - val m) > 1 / 1000 then
        aud ++ [⟨m.name, m.product_code, m.food_paper_cost_total, val m⟩] else aud)
      (st.setCost m.id (val m))
      (fun x hx => hP x (List.mem_cons_of_mem m hx))
      (hpres st m hInv (hP m (List.mem_cons_self m rest)))
    simp only [batchStep, hrc]
    by_cases hch : abs (m.food_paper_cost_total - val m) > 1 / 1000
    · rw [if_pos hch] at hrest ⊢
      rw [if_pos hch] at hrest
      rw [hrest, List.filter_cons_of_pos (by simpa using hch)]
      simp [List.append_assoc, Nat.add_comm, Nat.add_assoc, Nat.add_left_comm]
    · rw [if_neg hch] at hrest ⊢
      rw [if_neg hch] at hrest
      rw [hrest, List.filter_cons_of_neg (by simpa using hch)]
      rfl

theorem getProduct_mapped (db : DB) (f : Product → Product)
    (hf : ∀ q, (f q).id = q.id) (i : Nat) :
    DB.getProduct { db with products := db.products.map f } i =
      (db.getProduct i).map f := by
  unfold DB.getProduct
  show (db.products.map f).find? _ = _
  rw [List.find?_map, find?_comp_id_preserving hf]

theorem phase1_batch (db : DB) (hnodup : IdsNodup db) (hres : LeafResolvable db) :
    batchStep (db.products.filter (fun p => p.product_type == "product")) 0 [] db =
      some
        (((db.products.filter (fun p => p.product_type == "product")).filter
            (fun m => decide (abs (m.food_paper_cost_total - leafNew db m) > 1 / 1000))).length,
         ((db.products.filter (fun p => p.product_type == "product")).filter
            (fun m => decide (abs (m.food_paper_cost_total - leafNew db m) > 1 / 1000))).map
            (fun m => ⟨m.name, m.product_code, m.food_paper_cost_total, leafNew db m⟩),
         phase1DB db) := by
  have hinj : ∀ a ∈ db.products, ∀ b ∈ db.products, a.id = b.id → a = b :=
    fun a ha b hb hab => List.inj_on_of_nodup_map hnodup ha hb hab
  have hval : ∀ (st : DB) (m : Product),
      (st.ingredients = db.ingredients ∧ st.product_ingredients = db.product_ingredients) →
      (m.product_type = "product" ∧ (Product.recalculate_cost db m).isSome = true) →
      Product.recalculate_cost st m = some (leafNew db m) := by
    rintro st m ⟨hi, hpi⟩ ⟨hm, hsome⟩
    rw [recalc_leaf_congr hi hpi rfl rfl hm]
    obtain ⟨c, hc⟩ := Option.isSome_iff_exists.mp hsome
    unfold leafNew
    rw [hc]
    rfl
  have hpres : ∀ (st : DB) (m : Product),
      (st.ingredients = db.ingredients ∧ st.product_ingredients = db.product_ingredients) →
      (m.product_type = "product" ∧ (Product.recalculate_cost db m).isSome = true) →
      ((st.setCost m.id (leafNew db m)).ingredients = db.ingredients ∧
        (st.setCost m.id (leafNew db m)).product_ingredients = db.product_ingredients) :=
    fun _ _ h _ => h
  have hP : ∀ m ∈ db.products.filter (fun p => p.product_type == "product"),
      m.product_type = "product" ∧ (Product.recalculate_cost db m).isSome = true := by
    intro m hm
    have h2 := List.mem_filter.mp hm
    have hm' : m.product_type = "product" := by simpa using h2.2
    exact ⟨hm', hres m h2.1 hm'⟩
  rw [batchStep_spec (fun m => leafNew db m) _ _ hval hpres _ 0 [] db hP ⟨rfl, rfl⟩]
  rw [Nat.zero_add, List.nil_append, foldl_setCost_eq]
  refine congrArg some ?_
  simp only [Prod.mk.injEq]
  refine ⟨by trivial, by trivial, ?_⟩
  unfold phase1DB phase1Upd
  congr 1
  apply List.map_congr_left
  intro q hq
  by_cases hdep : (q.product_type == "product") = true
  · rw [if_pos hdep]
    exact foldl_costUpd_mem _ _ q
      (fun m hm hid => hinj m (List.mem_of_mem_filter hm) q hq hid)
      (List.mem_filter.mpr ⟨hq, hdep⟩)
  · rw [if_neg hdep]
    refine foldl_costUpd_notmem _ _ q (fun m hm hid => ?_)
    have hmq : m = q := hinj m (List.mem_of_mem_filter hm) q hq hid
    exact hdep (hmq ▸ (List.mem_filter.mp hm).2)

theorem phase1_preserves_id (db : DB) :
    ∀ q : Product, (phase1Upd db q).id = q.id := by
  intro q
  unfold phase1Upd
  by_cases h : (q.product_type == "product") = true <;> simp [h]

theorem phase1DB_filter_menu (db : DB) :
    (phase1DB db).products.filter (fun p => p.product_type == "menu") =
      db.products.filter (fun p => p.product_type == "menu") := by
  unfold phase1DB
  show (db.products.map _).filter _ = _
  rw [List.filter_map]
  have hcomp : ((fun p : Product => p.product_type == "menu") ∘ phase1Upd db) =
      fun p : Product => p.product_type == "menu" := by
    funext q
    unfold phase1Upd
    by_cases h : (q.product_type == "product") = true <;> simp [Function.comp, h]
  rw [hcomp]
  have hid : ∀ q ∈ db.products.filter (fun p => p.product_type == "menu"),
      phase1Upd db q = q := by
    intro q hq
    have h2 : (q.product_type == "menu") = true := (List.mem_filter.mp hq).2
    have h3 : ¬ (q.product_type == "product") = true := by
      simp only [beq_iff_eq] at h2 ⊢
      rw [h2]
      decide
    simp [phase1Upd, h3]
  rw [List.map_congr_left hid]
  simp

theorem IdsNodup_mapped (db : DB) (f : Product → Product)
    (hf : ∀ q, (f q).id = q.id) (h : IdsNodup db) :
    IdsNodup { db with products := db.products.map f } := by
  unfold IdsNodup
  show ((db.products.map f).map _).Nodup
  rw [List.map_map]
  have hcomp : ((fun p : Product => p.id) ∘ f) = fun p : Product => p.id :=
    funext fun q => by simp [Function.comp, hf q]
  rw [hcomp]
  exact h

theorem phase2_batch (db : DB) (hnodup : IdsNodup db) (hbase : BasesAreLeaves db)
    (c : Nat) (a : List AuditEntry) :
    batchStep (db.products.filter (fun p => p.product_type == "menu")) c a (phase1DB db) =
      some
        (c + ((db.products.filter (fun p => p.product_type == "menu")).filter
            (fun m => decide (abs (m.food_paper_cost_total - menuNew db m) > 1 / 1000))).length,
         a ++ ((db.products.filter (fun p => p.product_type == "menu")).filter
            (fun m => decide (abs (m.food_paper_cost_total - menuNew db m) > 1 / 1000))).map
            (fun m => ⟨m.name, m.product_code, m.food_paper_cost_total, menuNew db m⟩),
         finalDB db) := by
  have hinj : ∀ a ∈ db.products, ∀ b ∈ db.products, a.id = b.id → a = b :=
    fun x hx y hy hxy => List.inj_on_of_nodup_map hnodup hx hy hxy
  have hmenu_m : ∀ q ∈ db.products, q.product_type = "menu" →
      (phase1DB db).getProduct q.id = some q := by
    intro q hq hqt
    unfold phase1DB
    rw [getProduct_mapped _ _ (phase1_preserves_id db), getProduct_of_mem hq hnodup]
    have h3 : ¬ (q.product_type == "product") = true := by
      simp only [beq_iff_eq]
      rw [hqt]
      decide
    have hupd : phase1Upd db q = q := by
      unfold phase1Upd
      rw [if_neg h3]
    exact congrArg some hupd
  have hval : ∀ (st : DB) (m : Product),
      ((∀ i q, (phase1DB db).getProduct i = some q → q.product_type = "product" →
          st.getProduct i = some q) ∧
        (∀ i, (phase1DB db).getProduct i = none → st.getProduct i = none)) →
      (m.product_type = "menu" ∧ m ∈ db.products) →
      Product.recalculate_cost st m = some (menuNew db m) := by
    rintro st m ⟨hInv1, hInv2⟩ ⟨hm, hmem⟩
    rw [recalc_menu st m hm]
    suffices h : menuBase st m = menuBaseNew db m by rw [h]; rfl
    cases hb : m.base_product_id with
    | none => simp [menuBase, menuBaseNew, hb]
    | some bid =>
      by_cases h0 : bid = 0
      · simp [menuBase, menuBaseNew, hb, h0]
      · cases hq : db.getProduct bid with
        | none =>
          have hp1 : (phase1DB db).getProduct bid = none := by
            unfold phase1DB
            rw [getProduct_mapped _ _ (phase1_preserves_id db), hq]
            rfl
          rw [menuBase_missing hb h0 (hInv2 bid hp1)]
          simp [menuBaseNew, hb, h0, hq]
        | some bp =>
          have hbp : bp.product_type = "product" := baseOk_spec (hbase m hmem hm) hb hq
          have hp1 : (phase1DB db).getProduct bid =
              some { bp with food_paper_cost_total := leafNew db bp } := by
            unfold phase1DB
            rw [getProduct_mapped _ _ (phase1_preserves_id db), hq]
            have hb2 : (bp.product_type == "product") = true := by simpa using hbp
            exact congrArg some (if_pos hb2)
          have hst : st.getProduct bid =
              some { bp with food_paper_cost_total := leafNew db bp } :=
            hInv1 bid _ hp1 hbp
          rw [menuBase_eq hb h0 hst]
          simp [menuBaseNew, hb, h0, hq]
  have hpres : ∀ (st : DB) (m : Product),
      ((∀ i q, (phase1DB db).getProduct i = some q → q.product_type = "product" →
          st.getProduct i = some q) ∧
        (∀ i, (phase1DB db).getProduct i = none → st.getProduct i = none)) →
      (m.product_type = "menu" ∧ m ∈ db.products) →
      ((∀ i q, (phase1DB db).getProduct i = some q → q.product_type = "product" →
          (st.setCost m.id (menuNew db m)).getProduct i = some q) ∧
        (∀ i, (phase1DB db).getProduct i = none →
          (st.setCost m.id (menuNew db m)).getProduct i = none)) := by
    rintro st m ⟨hInv1, hInv2⟩ ⟨hm, hmem⟩
    constructor
    · intro i q hp1 hqt
      rw [getProduct_setCost, hInv1 i q hp1 hqt]
      have hne : ¬ (q.id == m.id) = true := by
        simp only [beq_iff_eq]
        intro he
        have hqi : q.id = i := id_eq_of_getProduct hp1
        have hm1 : (phase1DB db).getProduct m.id = some m := hmenu_m m hmem hm
        have hmi : m.id = i := he.symm.trans hqi
        rw [hmi, hp1] at hm1
        have hqm : q = m := by injection hm1
        rw [hqm, hm] at hqt
        exact absurd hqt (by decide)
      exact congrArg some (if_neg hne)
    · intro i hp1
      rw [getProduct_setCost, hInv2 i hp1]
      rfl
  have hP : ∀ m ∈ db.products.filter (fun p => p.product_type == "menu"),
      m.product_type = "menu" ∧ m ∈ db.products := by
    intro m hm
    have h2 := List.mem_filter.mp hm
    exact ⟨by simpa using h2.2, h2.1⟩
  rw [batchStep_spec (fun m => menuNew db m) _ _ hval hpres _ c a (phase1DB db) hP
    ⟨fun _ _ h _ => h, fun _ h => h⟩]
  refine congrArg some ?_
  simp only [Prod.mk.injEq]
  refine ⟨by trivial, by trivial, ?_⟩
  rw [foldl_setCost_eq]
  unfold phase1DB finalDB phase1Upd finalUpd
  simp only [List.map_map]
  congr 1
  apply List.map_congr_left
  intro q hq
  simp only [Function.comp]
  by_cases hleaf : (q.product_type == "product") = true
  · rw [if_pos hleaf, if_pos hleaf]
    refine foldl_costUpd_notmem _ _ _ (fun m hm hid => ?_)
    have hmm := List.mem_filter.mp hm
    have hmq : m = q := by
      refine hinj m hmm.1 q hq ?_
      simpa using hid
    have : (q.product_type == "menu") = true := hmq ▸ hmm.2
    simp only [beq_iff_eq] at this hleaf
    rw [hleaf] at this
    exact absurd this (by decide)
  · rw [if_neg hleaf, if_neg hleaf]
    by_cases hmenu : (q.product_type == "menu") = true
    · rw [if_pos hmenu]
      exact foldl_costUpd_mem _ _ q
        (fun m hm hid => hinj m (List.mem_of_mem_filter hm) q hq hid)
        (List.mem_filter.mpr ⟨hq, hmenu⟩)
    · rw [if_neg hmenu]
      refine foldl_costUpd_notmem _ _ _ (fun m hm hid => ?_)
      have hmm := List.mem_filter.mp hm
      have hmq : m = q := hinj m hmm.1 q hq hid
      exact hmenu (hmq ▸ hmm.2)

theorem recalcAll_char (db : DB) (commitOk : Bool)
    (hnodup : IdsNodup db) (hres : LeafResolvable db) (hbase : BasesAreLeaves db) :
    Product.recalculate_all_costs db commitOk =
      some
        (if commitOk then
          BatchOutcome.ok
            (((db.products.filter (fun p => p.product_type == "product")).filter
                (fun m => decide (abs (m.food_paper_cost_total - leafNew db m) > 1 / 1000))).length +
              ((db.products.filter (fun p => p.product_type == "menu")).filter
                (fun m => decide (abs (m.food_paper_cost_total - menuNew db m) > 1 / 1000))).length)
            (((db.products.filter (fun p => p.product_type == "product")).filter
                (fun m => decide (abs (m.food_paper_cost_total - leafNew db m) > 1 / 1000))).map
                (fun m => ⟨m.name, m.product_code, m.food_paper_cost_total, leafNew db m⟩) ++
              ((db.products.filter (fun p => p.product_type == "menu")).filter
                (fun m => decide (abs (m.food_paper_cost_total - menuNew db m) > 1 / 1000))).map
                (fun m => ⟨m.name, m.product_code, m.food_paper_cost_total, menuNew db m⟩))
            (finalDB db)
        else BatchOutcome.failed db) := by
  unfold Product.recalculate_all_costs
  simp only [phase1_batch db hnodup hres, phase1DB_filter_menu db,
    phase2_batch db hnodup hbase]

/-! ### Claim theorems -/

theorem linePrices_eq_map {db : DB} :
    ∀ l : List ProductIngredient,
      (∀ pi ∈ l, (db.getIngredient pi.ingredient_id).isSome = true) →
      linePrices db l =
        some (l.map
          (fun pi => ((db.getIngredient pi.ingredient_id).map
            (fun i => i.food_paper_cost)).getD 0)) := by
  intro l
  induction l with
  | nil => intro _; rfl
  | cons pi rest ih =>
    intro h
    obtain ⟨ing, hing⟩ :=
      Option.isSome_iff_exists.mp (h pi (List.mem_cons_self pi rest))
    simp [linePrices, hing, ih (fun x hx => h x (List.mem_cons_of_mem pi hx))]

/-- C1 (corrected, amended part): for a leaf product whose ingredient lines
all resolve, `recalculate_cost` stores the PLAIN sum of the lines'
ingredient unit costs, rounded to 2 decimal places.  There is no
quantity factor: the `product_ingredients` table has no quantity column,
so each ingredient contributes its unit price exactly once.  (The source
computes this sum in Python floats; over the whole-cent `Numeric(15, 2)`
column values modelled here the arithmetic is exact.) -/
theorem recalc_leaf_plain_sum (db : DB) (p : Product)
    (hp : p.product_type = "product")
    (hres : ∀ pi ∈ p.lines db, (db.getIngredient pi.ingredient_id).isSome = true) :
    Product.recalculate_cost db p =
      some (round2 (((p.lines db).map
        (fun pi => ((db.getIngredient pi.ingredient_id).map
          (fun i => i.food_paper_cost)).getD 0)).sum)) := by
  unfold Product.recalculate_cost
  rw [if_pos hp, linePrices_eq_map (p.lines db) hres]
  rfl

/-- C4 (confirmed): if the stored cost of the base product referenced by a
menu increases by X (all stored money values being whole cents, as the
`Numeric(15, 2)` columns guarantee), then the recomputed menu cost
increases by exactly X, the add-on contributions staying unchanged. -/
theorem menu_cost_propagation (db : DB) (m bp : Product) (b : Nat) (X : ℚ)
    (hm : m.product_type = "menu") (hb : m.base_product_id = some b)
    (hb0 : b ≠ 0) (hfind : db.getProduct b = some bp)
    (hX : 0 < X) (hXc : isCent X) (hc : isCent bp.food_paper_cost_total)
    (hf : isCent (orZero m.fries_fp_cost)) (hd : isCent (orZero m.drink_fp_cost)) :
    Product.recalculate_cost (db.setCost b (bp.food_paper_cost_total + X)) m =
      (Product.recalculate_cost db m).map (fun c => c + X) := by
  have hbid : bp.id = b := id_eq_of_getProduct hfind
  have hfind2 : (db.setCost b (bp.food_paper_cost_total + X)).getProduct b =
      some { bp with food_paper_cost_total := bp.food_paper_cost_total + X } := by
    rw [getProduct_setCost, hfind]
    have hbb : (bp.id == b) = true := by simpa using hbid
    exact congrArg some (if_pos hbb)
  rw [recalc_menu _ _ hm, recalc_menu _ _ hm,
    menuBase_eq hb hb0 hfind2, menuBase_eq hb hb0 hfind]
  have hsum : isCent (bp.food_paper_cost_total + orZero m.fries_fp_cost +
      orZero m.drink_fp_cost) := isCent_add (isCent_add hc hf) hd
  have harr : bp.food_paper_cost_total + X + orZero m.fries_fp_cost +
      orZero m.drink_fp_cost =
      bp.food_paper_cost_total + orZero m.fries_fp_cost + orZero m.drink_fp_cost + X := by
    ring
  show some (round2 _) = some (round2 _ + X)
  rw [harr, round2_isCent (isCent_add hsum hXc), round2_isCent hsum]

/-- C5 (corrected, amended part): the recomputed cost of a menu whose base
product row exists is the base product's STORED total cost (snapshot) plus
the menu's own STORED fries and drink cost fields, rounded to 2 decimal
places.  The size-keyed fixed price tables are used only at menu-creation
time, never by `recalculate_cost`. -/
theorem menu_recalc_stored_addons (db : DB) (m bp : Product) (bid : Nat)
    (hm : m.product_type = "menu") (hb : m.base_product_id = some bid)
    (h0 : bid ≠ 0) (hfind : db.getProduct bid = some bp) :
    Product.recalculate_cost db m =
      some (round2 (bp.food_paper_cost_total + orZero m.fries_fp_cost +
        orZero m.drink_fp_cost)) := by
  rw [recalc_menu _ _ hm, menuBase_eq hb h0 hfind]

/-- C8 (confirmed): a menu whose `base_product_id` references a missing
product row is recomputed with a zero base contribution — the cost is the
rounded sum of the remaining add-on terms — and the computation returns a
value (no exception). -/
theorem menu_missing_base_zero_contribution (db : DB) (m : Product) (bid : Nat)
    (hm : m.product_type = "menu") (hb : m.base_product_id = some bid)
    (h0 : bid ≠ 0) (hmiss : db.getProduct bid = none) :
    Product.recalculate_cost db m =
      some (round2 (0 + orZero m.fries_fp_cost + orZero m.drink_fp_cost)) := by
  rw [recalc_menu _ _ hm, menuBase_missing hb h0 hmiss]

theorem finalUpd_id (db : DB) (q : Product) : (finalUpd db q).id = q.id := by
  unfold finalUpd
  by_cases h1 : (q.product_type == "product") = true
  · simp [h1]
  · by_cases h2 : (q.product_type == "menu") = true <;> simp [h1, h2]

theorem finalUpd_type (db : DB) (q : Product) :
    (finalUpd db q).product_type = q.product_type := by
  unfold finalUpd
  by_cases h1 : (q.product_type == "product") = true
  · simp [h1]
  · by_cases h2 : (q.product_type == "menu") = true <;> simp [h1, h2]

theorem finalUpd_base (db : DB) (q : Product) :
    (finalUpd db q).base_product_id = q.base_product_id := by
  unfold finalUpd
  by_cases h1 : (q.product_type == "product") = true
  · simp [h1]
  · by_cases h2 : (q.product_type == "menu") = true <;> simp [h1, h2]

theorem finalUpd_fries (db : DB) (q : Product) :
    (finalUpd db q).fries_fp_cost = q.fries_fp_cost := by
  unfold finalUpd
  by_cases h1 : (q.product_type == "product") = true
  · simp [h1]
  · by_cases h2 : (q.product_type == "menu") = true <;> simp [h1, h2]

theorem finalUpd_drink (db : DB) (q : Product) :
    (finalUpd db q).drink_fp_cost = q.drink_fp_cost := by
  unfold finalUpd
  by_cases h1 : (q.product_type == "product") = true
  · simp [h1]
  · by_cases h2 : (q.product_type == "menu") = true <;> simp [h1, h2]

theorem finalUpd_leaf {db : DB} {q : Product} (h : q.product_type = "product") :
    finalUpd db q = { q with food_paper_cost_total := leafNew db q } := by
  unfold finalUpd
  rw [if_pos (by simpa using h)]

theorem finalUpd_menu {db : DB} {q : Product} (h : q.product_type = "menu") :
    finalUpd db q = { q with food_paper_cost_total := menuNew db q } := by
  unfold finalUpd
  have h1 : ¬ (q.product_type == "product") = true := by
    simp only [beq_iff_eq]
    rw [h]
    decide
  rw [if_neg h1, if_pos (by simpa using h)]

theorem finalUpd_other {db : DB} {q : Product}
    (h1 : ¬ q.product_type = "product") (h2 : ¬ q.product_type = "menu") :
    finalUpd db q = q := by
  unfold finalUpd
  rw [if_neg (by simpa using h1), if_neg (by simpa using h2)]

theorem getProduct_finalDB (db : DB) (i : Nat) :
    (finalDB db).getProduct i = (db.getProduct i).map (finalUpd db) := by
  unfold finalDB
  exact getProduct_mapped db (finalUpd db) (finalUpd_id db) i

/-- C7 (confirmed): for a leaf product, `update_dependent_menus` updates
exactly the active menu rows whose base-product reference points to it —
each gets the recomputed stored cost (base stored cost plus its stored
add-on costs, rounded), every other row is untouched — and the returned
report lists exactly the dependent menus whose stored cost moved by more
than the 0.001 tolerance. -/
theorem update_dependent_menus_exact (db : DB) (p : Product)
    (hp : p.product_type = "product") (hmem : p ∈ db.products)
    (hnodup : IdsNodup db) (hpid : p.id ≠ 0) :
    Product.update_dependent_menus db p =
      some
        (((db.products.filter
              (fun m => m.product_type == "menu" && m.base_product_id == some p.id && m.is_active)).filter
            (fun m => decide (abs (m.food_paper_cost_total - newMenuCost p m) > 1 / 1000))).map
          (fun m => m.name),
         { db with
           products := db.products.map
             (fun q =>
               if q.product_type == "menu" && q.base_product_id == some p.id && q.is_active then
                 { q with food_paper_cost_total := newMenuCost p q }
               else q) }) :=
  update_dependent_menus_char db p hp hmem hnodup hpid

/-- C2 (confirmed): with all leaf lines resolvable, all ids distinct and
one-hop menu bases, `recalculate_all_costs` succeeds; every leaf product's
cost is recomputed from the ingredient lines alone and persisted; every
menu product's cost is recomputed from its base product's FRESHLY
RECOMPUTED leaf cost (leaves strictly before menus) and persisted; the
returned count equals the number of audit entries; and the audit log
lists, with old and new values, exactly the products whose stored cost
moved by more than the 0.001 tolerance.  (The source walks every row of
each type, active or not, so in particular every active one.) -/
theorem recalc_all_leaves_before_menus (db : DB)
    (hnodup : IdsNodup db) (hres : LeafResolvable db) (hbase : BasesAreLeaves db) :
    ∃ cnt aud stF,
      Product.recalculate_all_costs db true = some (.ok cnt aud stF) ∧
      cnt = aud.length ∧
      (∀ q ∈ db.products, q.product_type = "product" →
        stF.getProduct q.id = some { q with food_paper_cost_total := leafNew db q }) ∧
      (∀ m ∈ db.products, m.product_type = "menu" →
        stF.getProduct m.id = some { m with food_paper_cost_total := menuNew db m }) ∧
      (∀ m ∈ db.products, m.product_type = "menu" → ∀ bid, m.base_product_id = some bid →
        bid ≠ 0 → ∀ bp, db.getProduct bid = some bp →
        menuNew db m = round2 (leafNew db bp + orZero m.fries_fp_cost + orZero m.drink_fp_cost)) ∧
      (∀ e ∈ aud, abs (e.old_cost - e.new_cost) > 1 / 1000) ∧
      (∀ q ∈ db.products, q.product_type = "product" →
        abs (q.food_paper_cost_total - leafNew db q) > 1 / 1000 →
        (⟨q.name, q.product_code, q.food_paper_cost_total, leafNew db q⟩ : AuditEntry) ∈ aud) ∧
      (∀ m ∈ db.products, m.product_type = "menu" →
        abs (m.food_paper_cost_total - menuNew db m) > 1 / 1000 →
        (⟨m.name, m.product_code, m.food_paper_cost_total, menuNew db m⟩ : AuditEntry) ∈ aud) := by
  refine ⟨_, _, finalDB db, recalcAll_char db true hnodup hres hbase, ?_, ?_, ?_, ?_, ?_, ?_, ?_⟩
  · rw [List.length_append, List.length_map, List.length_map]
  · intro q hq hqt
    rw [getProduct_finalDB, getProduct_of_mem hq hnodup]
    exact congrArg some (finalUpd_leaf hqt)
  · intro m hm hmt
    rw [getProduct_finalDB, getProduct_of_mem hm hnodup]
    exact congrArg some (finalUpd_menu hmt)
  · intro m _ _ bid hb hb0 bp hbp
    simp [menuNew, menuBaseNew, hb, hb0, hbp]
  · intro e he
    rcases List.mem_append.mp he with h | h <;>
    · obtain ⟨m, hm, rfl⟩ := List.mem_map.mp h
      simpa using (List.mem_filter.mp hm).2
  · intro q hq hqt hch
    refine List.mem_append.mpr (Or.inl (List.mem_map.mpr ⟨q, ?_, rfl⟩))
    exact List.mem_filter.mpr
      ⟨List.mem_filter.mpr ⟨hq, by simpa using hqt⟩, by simpa using hch⟩
  · intro m hm hmt hch
    refine List.mem_append.mpr (Or.inr (List.mem_map.mpr ⟨m, ?_, rfl⟩))
    exact List.mem_filter.mpr
      ⟨List.mem_filter.mpr ⟨hm, by simpa using hmt⟩, by simpa using hch⟩

/-- C6 (confirmed): if the whole-batch recompute would succeed but the
commit fails, the session is rolled back — the persisted state is the
original one, no product cost partially applied — and the error is
surfaced to the caller (outcome `failed`, not a silent success). -/
theorem recalc_all_commit_failure_rollback (db : DB) (cnt : Nat)
    (aud : List AuditEntry) (stF : DB)
    (hok : Product.recalculate_all_costs db true = some (.ok cnt aud stF)) :
    Product.recalculate_all_costs db false = some (.failed db) := by
  unfold Product.recalculate_all_costs at hok ⊢
  cases h1 : batchStep (db.products.filter (fun p => p.product_type == "product")) 0 [] db with
  | none => simp [h1] at hok
  | some t1 =>
    obtain ⟨c1, a1, st1⟩ := t1
    cases h2 : batchStep (st1.products.filter (fun p => p.product_type == "menu")) c1 a1 st1 with
    | none => simp [h1, h2] at hok
    | some t2 =>
      obtain ⟨c2, a2, st2⟩ := t2
      simp [h1, h2]

theorem recalc_finalDB_leaf {db : DB} {q : Product} (hqt : q.product_type = "product") :
    Product.recalculate_cost (finalDB db) (finalUpd db q) =
      Product.recalculate_cost db q :=
  recalc_leaf_congr rfl rfl (finalUpd_id db q) (finalUpd_type db q) hqt

theorem leafNew_finalDB {db : DB} {q : Product} (hqt : q.product_type = "product") :
    leafNew (finalDB db) (finalUpd db q) = leafNew db q := by
  unfold leafNew
  rw [recalc_finalDB_leaf hqt]

theorem menuBaseNew_finalDB {db : DB} {m : Product} (hbok : baseOk db m = true) :
    menuBaseNew (finalDB db) (finalUpd db m) = menuBaseNew db m := by
  cases hb : m.base_product_id with
  | none => simp [menuBaseNew, finalUpd_base, hb]
  | some bid =>
    by_cases h0 : bid = 0
    · simp [menuBaseNew, finalUpd_base, hb, h0]
    · simp only [menuBaseNew, finalUpd_base, hb]
      rw [if_neg h0, if_neg h0, getProduct_finalDB]
      cases hq : db.getProduct bid with
      | none => rfl
      | some bp =>
        show leafNew (finalDB db) (finalUpd db bp) = leafNew db bp
        exact leafNew_finalDB (baseOk_spec hbok hb hq)

theorem menuNew_finalDB {db : DB} {m : Product} (hbok : baseOk db m = true) :
    menuNew (finalDB db) (finalUpd db m) = menuNew db m := by
  unfold menuNew
  rw [menuBaseNew_finalDB hbok, finalUpd_fries, finalUpd_drink]

/-- C3 (corrected, amended part): when every menu's base-product reference
resolves to a leaf product (one-hop propagation, as the specification
describes the catalog), `recalculate_all_costs` is idempotent: a second
consecutive run reports changed-count 0 and an empty audit log.  Without
that restriction the claim fails (see the counterexample with a menu whose
base is another menu). -/
theorem recalc_all_idempotent_leaf_bases (db : DB)
    (hnodup : IdsNodup db) (hres : LeafResolvable db) (hbase : BasesAreLeaves db) :
    ∃ cnt aud stF,
      Product.recalculate_all_costs db true = some (.ok cnt aud stF) ∧
      Product.recalculate_all_costs stF true = some (.ok 0 [] (finalDB stF)) := by
  refine ⟨_, _, finalDB db, recalcAll_char db true hnodup hres hbase, ?_⟩
  have hnodup2 : IdsNodup (finalDB db) :=
    IdsNodup_mapped db (finalUpd db) (finalUpd_id db) hnodup
  have hres2 : LeafResolvable (finalDB db) := by
    intro q' hq' hq't
    obtain ⟨q, hq, rfl⟩ := List.mem_map.mp hq'
    have hqt : q.product_type = "product" := by rwa [finalUpd_type] at hq't
    rw [recalc_finalDB_leaf hqt]
    exact hres q hq hqt
  have hbase2 : BasesAreLeaves (finalDB db) := by
    intro m' hm' hm't
    obtain ⟨m, hm, rfl⟩ := List.mem_map.mp hm'
    have hmt : m.product_type = "menu" := by rwa [finalUpd_type] at hm't
    have hb := hbase m hm hmt
    cases hbid : m.base_product_id with
    | none => simp [baseOk, finalUpd_base, hbid]
    | some bid =>
      simp only [baseOk, finalUpd_base, hbid, getProduct_finalDB]
      cases hq : db.getProduct bid with
      | none => rfl
      | some bp =>
        show ((finalUpd db bp).product_type == "product") = true
        rw [finalUpd_type]
        simpa using baseOk_spec hb hbid hq
  rw [recalcAll_char (finalDB db) true hnodup2 hres2 hbase2]
  have hleafnil : ((finalDB db).products.filter
      (fun p => p.product_type == "product")).filter
      (fun m => decide (abs (m.food_paper_cost_total - leafNew (finalDB db) m) > 1 / 1000)) =
      [] := by
    rw [List.filter_eq_nil_iff]
    intro q' hq'
    have hq't : q'.product_type = "product" := by
      simpa using (List.mem_filter.mp hq').2
    obtain ⟨q, hq, rfl⟩ := List.mem_map.mp (List.mem_filter.mp hq').1
    have hqt : q.product_type = "product" := by rwa [finalUpd_type] at hq't
    rw [leafNew_finalDB hqt, finalUpd_leaf hqt]
    simp
  have hmenunil : ((finalDB db).products.filter
      (fun p => p.product_type == "menu")).filter
      (fun m => decide (abs (m.food_paper_cost_total - menuNew (finalDB db) m) > 1 / 1000)) =
      [] := by
    rw [List.filter_eq_nil_iff]
    intro m' hm'
    have hm't : m'.product_type = "menu" := by
      simpa using (List.mem_filter.mp hm').2
    obtain ⟨m, hm, rfl⟩ := List.mem_map.mp (List.mem_filter.mp hm').1
    have hmt : m.product_type = "menu" := by rwa [finalUpd_type] at hm't
    rw [menuNew_finalDB (hbase m hm hmt), finalUpd_menu hmt]
    simp
  rw [hleafnil, hmenunil]
  rfl

/-! ### Whole-cent invariants -/

theorem recalc_isCent {db : DB} {p : Product} {c : ℚ}
    (h : Product.recalculate_cost db p = some c) : isCent c := by
  unfold Product.recalculate_cost at h
  by_cases h1 : p.product_type = "product"
  · rw [if_pos h1] at h
    cases hl : linePrices db (p.lines db) with
    | none => rw [hl] at h; cases h
    | some ps =>
      rw [hl] at h
      have h2 : round2 ps.sum = c := by
        have h3 : some (round2 ps.sum) = some c := h
        injection h3
      exact h2 ▸ isCent_round2 ps.sum
  · rw [if_neg h1] at h
    by_cases h2 : p.product_type = "menu"
    · rw [if_pos h2] at h
      have h3 : round2 (menuBase db p + orZero p.fries_fp_cost + orZero p.drink_fp_cost) = c := by
        injection h
      exact h3 ▸ isCent_round2 _
    · rw [if_neg h2] at h
      have h3 : round2 0 = c := by injection h
      exact h3 ▸ isCent_round2 0

theorem CentOrOld_setCost {db st : DB} {j : Nat} {c : ℚ}
    (h : CentOrOld db st) (hc : isCent c) : CentOrOld db (st.setCost j c) := by
  intro q' hq'
  obtain ⟨q, hq, rfl⟩ := List.mem_map.mp hq'
  by_cases hid : (q.id == j) = true
  · rw [if_pos hid]
    exact Or.inl hc
  · rw [if_neg hid]
    exact h q hq

theorem depMenuStep_cent {db : DB} :
    ∀ (ms : List Product) (names : List String) (st : DB) (res : List String × DB),
      CentOrOld db st → depMenuStep ms names st = some res → CentOrOld db res.2 := by
  intro ms
  induction ms with
  | nil =>
    intro names st res h he
    cases he
    exact h
  | cons m rest ih =>
    intro names st res h he
    unfold depMenuStep at he
    cases hrc : Product.recalculate_cost st m with
    | none => rw [hrc] at he; cases he
    | some nc =>
      rw [hrc] at he
      exact ih _ _ res (CentOrOld_setCost h (recalc_isCent hrc)) he

theorem batchStep_cent {db : DB} :
    ∀ (ms : List Product) (cnt : Nat) (aud : List AuditEntry) (st : DB)
      (res : Nat × List AuditEntry × DB),
      CentOrOld db st → batchStep ms cnt aud st = some res → CentOrOld db res.2.2 := by
  intro ms
  induction ms with
  | nil =>
    intro cnt aud st res h he
    cases he
    exact h
  | cons m rest ih =>
    intro cnt aud st res h he
    unfold batchStep at he
    cases hrc : Product.recalculate_cost st m with
    | none => rw [hrc] at he; cases he
    | some nc =>
      simp only [hrc] at he
      by_cases hch : abs (m.food_paper_cost_total - nc) > 1 / 1000
      · rw [if_pos hch] at he
        exact ih _ _ _ res (CentOrOld_setCost h (recalc_isCent hrc)) he
      · rw [if_neg hch] at he
        exact ih _ _ _ res (CentOrOld_setCost h (recalc_isCent hrc)) he

/-- C10 (confirmed): every cost the costing engine stores is
`round(total, 2)`, hence a whole number of cents: `recalculate_cost` only
produces whole-cent values; after `update_dependent_menus` every product
row either carries a whole-cent cost or is an untouched original row; the
same holds for the state persisted by a successful
`recalculate_all_costs`, while a failed (rolled-back) run leaves the
persisted state exactly the original one. -/
theorem costs_are_cents :
    (∀ (db : DB) (p : Product) (c : ℚ),
        Product.recalculate_cost db p = some c → isCent c) ∧
    (∀ (db : DB) (p : Product) (res : List String × DB),
        Product.update_dependent_menus db p = some res → CentOrOld db res.2) ∧
    (∀ (db : DB) (ok : Bool) (cnt : Nat) (aud : List AuditEntry) (st : DB),
        Product.recalculate_all_costs db ok = some (.ok cnt aud st) →
        CentOrOld db st) ∧
    (∀ (db : DB) (ok : Bool) (st : DB),
        Product.recalculate_all_costs db ok = some (.failed st) → st = db) := by
  have hok : ∀ (db : DB) (ok : Bool) (out : BatchOutcome),
      Product.recalculate_all_costs db ok = some out →
      (∀ cnt aud st, out = .ok cnt aud st → CentOrOld db st) ∧
      (∀ st, out = .failed st → st = db) := by
    intro db ok out h
    unfold Product.recalculate_all_costs at h
    cases h1 : batchStep (db.products.filter (fun p => p.product_type == "product")) 0 [] db with
    | none => simp only [h1] at h; exact Option.noConfusion h
    | some t1 =>
      obtain ⟨c1, a1, st1⟩ := t1
      simp only [h1] at h
      cases h2 : batchStep (st1.products.filter (fun p => p.product_type == "menu")) c1 a1 st1 with
      | none => simp only [h2] at h; exact Option.noConfusion h
      | some t2 =>
        obtain ⟨c2, a2, st2⟩ := t2
        simp only [h2, Option.some.injEq] at h
        have hcent1 : CentOrOld db st1 :=
          batchStep_cent _ 0 [] db (c1, a1, st1) (fun q hq => Or.inr hq) h1
        have hcent2 : CentOrOld db st2 :=
          batchStep_cent _ c1 a1 st1 (c2, a2, st2) hcent1 h2
        have hout : out = if ok = true then BatchOutcome.ok c2 a2 st2
            else BatchOutcome.failed db := h.symm
        cases ok with
        | true =>
          rw [if_pos rfl] at hout
          subst hout
          refine ⟨?_, ?_⟩
          · intro cnt aud st hst
            injection hst with e1 e2 e3
            exact e3 ▸ hcent2
          · intro st hst
            cases hst
        | false =>
          rw [if_neg (by decide)] at hout
          subst hout
          refine ⟨?_, ?_⟩
          · intro cnt aud st hst
            cases hst
          · intro st hst
            injection hst with e1
            exact e1.symm
  refine ⟨fun db p c h => recalc_isCent h, ?_, ?_, ?_⟩
  · intro db p res h
    unfold Product.update_dependent_menus at h
    by_cases hp : p.product_type = "product"
    · rw [if_pos hp] at h
      exact depMenuStep_cent _ [] db res (fun q hq => Or.inr hq) h
    · rw [if_neg hp] at h
      cases h
      exact fun q hq => Or.inr hq
  · intro db ok cnt aud st h
    exact (hok db ok _ h).1 cnt aud st rfl
  · intro db ok st h
    exact (hok db ok _ h).2 st rfl

/-! ### Concrete evaluations: counterexamples and witnesses -/

section ConcreteEvaluations

attribute [local semireducible] Rat.mul Rat.inv Rat.add Rat.sub

/-- C1 (counterexample): the specification's own scenario — ingredient A at
1.50 per unit and product P composed of 2 units of A — must cost 3.00 by
the claimed formula Σ(quantity × unit price), but `recalculate_cost`
stores 1.50: the `product_ingredients` join table has no quantity column,
so the line contributes its unit price exactly once (and the uniqueness
constraint on (product, ingredient) forbids a second line for A). -/
theorem recalc_leaf_vs_spec_quantity_cex :
    Product.recalculate_cost c1db c1P = some (3 / 2) ∧
    spec_leaf_cost [(2, 3 / 2)] = 3 ∧ ((3 : ℚ) / 2) ≠ 3 := by decide

theorem recalc_leaf_plain_sum_witness :
    c1P.product_type = "product" ∧
    (∀ pi ∈ c1P.lines c1db, (c1db.getIngredient pi.ingredient_id).isSome = true) ∧
    Product.recalculate_cost c1db c1P =
      some (round2 (((c1P.lines c1db).map
        (fun pi => ((c1db.getIngredient pi.ingredient_id).map
          (fun i => i.food_paper_cost)).getD 0)).sum)) :=
  ⟨rfl, by decide, recalc_leaf_plain_sum c1db c1P rfl (by decide)⟩

theorem recalc_all_leaves_before_menus_witness :
    IdsNodup exDB ∧ LeafResolvable exDB ∧ BasesAreLeaves exDB ∧
    (∃ cnt aud stF,
      Product.recalculate_all_costs exDB true = some (.ok cnt aud stF) ∧
      cnt = aud.length ∧
      (∀ q ∈ exDB.products, q.product_type = "product" →
        stF.getProduct q.id = some { q with food_paper_cost_total := leafNew exDB q }) ∧
      (∀ m ∈ exDB.products, m.product_type = "menu" →
        stF.getProduct m.id = some { m with food_paper_cost_total := menuNew exDB m }) ∧
      (∀ m ∈ exDB.products, m.product_type = "menu" → ∀ bid, m.base_product_id = some bid →
        bid ≠ 0 → ∀ bp, exDB.getProduct bid = some bp →
        menuNew exDB m = round2 (leafNew exDB bp + orZero m.fries_fp_cost + orZero m.drink_fp_cost)) ∧
      (∀ e ∈ aud, abs (e.old_cost - e.new_cost) > 1 / 1000) ∧
      (∀ q ∈ exDB.products, q.product_type = "product" →
        abs (q.food_paper_cost_total - leafNew exDB q) > 1 / 1000 →
        (⟨q.name, q.product_code, q.food_paper_cost_total, leafNew exDB q⟩ : AuditEntry) ∈ aud) ∧
      (∀ m ∈ exDB.products, m.product_type = "menu" →
        abs (m.food_paper_cost_total - menuNew exDB m) > 1 / 1000 →
        (⟨m.name, m.product_code, m.food_paper_cost_total, menuNew exDB m⟩ : AuditEntry) ∈ aud)) :=
  ⟨by decide, by decide, by decide,
    recalc_all_leaves_before_menus exDB (by decide) (by decide) (by decide)⟩

/-- C3 (counterexample): in the catalog `c3db` — menu M2's base reference
points at menu M1, and M2 is stored first — the first recompute-all run
reports 1 change, and a second consecutive run with no data change
reports 1 change again (M2 only now sees M1's refreshed cost), not 0. -/
theorem recalc_all_not_idempotent_menu_base_cex :
    secondRunChangedCount c3db = some 1 ∧
    secondRunChangedCount c3db ≠ some 0 ∧
    IdsNodup c3db ∧ LeafResolvable c3db := by decide

theorem recalc_all_idempotent_leaf_bases_witness :
    IdsNodup exDB ∧ LeafResolvable exDB ∧ BasesAreLeaves exDB ∧
    (∃ cnt aud stF,
      Product.recalculate_all_costs exDB true = some (.ok cnt aud stF) ∧
      Product.recalculate_all_costs stF true = some (.ok 0 [] (finalDB stF))) :=
  ⟨by decide, by decide, by decide,
    recalc_all_idempotent_leaf_bases exDB (by decide) (by decide) (by decide)⟩

theorem menu_cost_propagation_witness :
    exM5.product_type = "menu" ∧ exM5.base_product_id = some 1 ∧ (1 : Nat) ≠ 0 ∧
    exDB5.getProduct 1 = some exP3 ∧ (0 : ℚ) < 1 / 2 ∧
    Product.recalculate_cost (exDB5.setCost 1 (exP3.food_paper_cost_total + 1 / 2)) exM5 =
      (Product.recalculate_cost exDB5 exM5).map (fun c => c + 1 / 2) :=
  ⟨rfl, rfl, by decide, by decide, by norm_num,
    menu_cost_propagation exDB5 exM5 exP3 1 (1 / 2) rfl rfl (by decide) (by decide)
      (by norm_num) ⟨50, by norm_num⟩ ⟨300, by decide⟩
      ⟨999, by decide⟩ ⟨200, by decide⟩⟩

/-- C5 (counterexample): menu M5 selects "large" fries (table price 3.50)
and "medium" drink (table price 2.00) over base product P (stored cost
3.00), so the claimed formula gives 8.50; but `recalculate_cost` uses the
menu's STORED `fries_fp_cost` of 9.99, not the size-keyed table, and
stores 14.99. -/
theorem menu_recalc_ignores_price_table_cex :
    exDB5.getProduct 1 = some exP3 ∧ exP3.food_paper_cost_total = 3 ∧
    exM5.fries_size = some "large" ∧ exM5.drink_size = some "medium" ∧
    fries_prices "large" = some (7 / 2) ∧ drink_prices "medium" = some 2 ∧
    (3 : ℚ) + 7 / 2 + 2 = 17 / 2 ∧
    Product.recalculate_cost exDB5 exM5 = some (1499 / 100) ∧
    (1499 / 100 : ℚ) ≠ 17 / 2 := by decide

theorem menu_recalc_stored_addons_witness :
    exM5.product_type = "menu" ∧ exM5.base_product_id = some 1 ∧ (1 : Nat) ≠ 0 ∧
    exDB5.getProduct 1 = some exP3 ∧
    Product.recalculate_cost exDB5 exM5 =
      some (round2 (exP3.food_paper_cost_total + orZero exM5.fries_fp_cost +
        orZero exM5.drink_fp_cost)) :=
  ⟨rfl, rfl, by decide, by decide,
    menu_recalc_stored_addons exDB5 exM5 exP3 1 rfl rfl (by decide) (by decide)⟩

theorem recalc_all_commit_failure_rollback_witness :
    Product.recalculate_all_costs exDB true =
      some (.ok 2 [⟨"P", "SW1", 0, 3 / 2⟩, ⟨"M", "MN1", 0, 7⟩] (finalDB exDB)) ∧
    Product.recalculate_all_costs exDB false = some (.failed exDB) :=
  ⟨by decide,
    recalc_all_commit_failure_rollback exDB 2
      [⟨"P", "SW1", 0, 3 / 2⟩, ⟨"M", "MN1", 0, 7⟩] (finalDB exDB) (by decide)⟩

theorem update_dependent_menus_exact_witness :
    exP3.product_type = "product" ∧ exP3 ∈ exDB5.products ∧ IdsNodup exDB5 ∧
    exP3.id ≠ 0 ∧
    Product.update_dependent_menus exDB5 exP3 =
      some
        (((exDB5.products.filter
              (fun m => m.product_type == "menu" && m.base_product_id == some exP3.id && m.is_active)).filter
            (fun m => decide (abs (m.food_paper_cost_total - newMenuCost exP3 m) > 1 / 1000))).map
          (fun m => m.name),
         { exDB5 with
           products := exDB5.products.map
             (fun q =>
               if q.product_type == "menu" && q.base_product_id == some exP3.id && q.is_active then
                 { q with food_paper_cost_total := newMenuCost exP3 q }
               else q) }) :=
  ⟨rfl, by decide, by decide, by decide,
    update_dependent_menus_exact exDB5 exP3 rfl (by decide) (by decide) (by decide)⟩

theorem menu_missing_base_zero_contribution_witness :
    exM8.product_type = "menu" ∧ exM8.base_product_id = some 9 ∧ (9 : Nat) ≠ 0 ∧
    exDB8.getProduct 9 = none ∧
    Product.recalculate_cost exDB8 exM8 =
      some (round2 (0 + orZero exM8.fries_fp_cost + orZero exM8.drink_fp_cost)) ∧
    Product.recalculate_cost exDB8 exM8 = some 1 :=
  ⟨rfl, rfl, by decide, rfl,
    menu_missing_base_zero_contribution exDB8 exM8 9 rfl rfl (by decide) rfl,
    by decide⟩

/-- C9 (code bug, evaluated at the failing input): with a zero selling
price, the menu-creation profit snippet performs NO assignment — the
profit fields stay unset (`none`), not 0 as the specification requires —
because `if menu.selling_price:` is falsy at `Decimal('0')` and the inner
`... if menu.selling_price > 0 else Decimal('0')` guard is unreachable.
With a positive selling price the snippet computes (profit,
margin-percent) as specified, and the listing margin computations of
models.py do return 0 at a zero price and the formula at a positive
price. -/
theorem create_menu_zero_selling_price_skips_profit :
    create_menu_profit (some 0) 5 = none ∧
    (create_menu_profit (some 0) 5).map Prod.snd ≠ some 0 ∧
    create_menu_profit (some 4) 3 = some (1, 25) ∧
    ProductListing.get_gross_profit_margin_local c9db c9L = some 0 ∧
    ProductListing.get_gross_profit_margin_delivery c9db c9L = some 50 := by decide

theorem costs_are_cents_witness :
    isCent (3 / 2 : ℚ) ∧ CentOrOld exDB (finalDB exDB) :=
  ⟨costs_are_cents.1 exDB exP (3 / 2) (by decide),
    costs_are_cents.2.2.1 exDB true 2
      [⟨"P", "SW1", 0, 3 / 2⟩, ⟨"M", "MN1", 0, 7⟩] (finalDB exDB) (by decide)⟩

end ConcreteEvaluations

end MenuBuilder
